import Mathlib

/-!
Verification of the affine-geometry kernel of the `rt_challenge` ray tracer.

The Rust source is shallowly embedded over the real numbers `ℝ`:
* `f64` scalars become `ℝ`;
* panics become `Option` results (`none` = panic) where a claim depends on them;
* the library `float_cmp` ULP comparison `approx_eq_ulps(a, b, 2)` is modelled
  as exact equality `a = b` on `ℝ` (a 2-ULP neighbourhood collapses to a point
  in the infinite-precision model);
* the crate's `roughly_equal` tolerance comparison is kept as `|a - b| < 1e-5`.

Definitions follow `src/roughly.rs`, `src/tuple.rs`, `src/matrix.rs`,
`src/ray.rs`, `src/shapes.rs`, `src/intersection.rs` and `src/spheres.rs`.
-/

/-- Mathlib's 4×4 real matrices, used to relate the source's cofactor-based
inverse to the adjugate inverse. Declared before the `RTC` namespace so the
name `Matrix` stays available for the source's own matrix type. -/
abbrev MathM4 : Type := Matrix (Fin 4) (Fin 4) ℝ

namespace RTC

/-! ## roughly.rs -/

/-- Rust `const EPSILON: f64 = 0.00001` from `src/roughly.rs`. -/
noncomputable def EPSILON : ℝ := 1 / 100000

/-- Rust `RoughlyEqual for f64` from `src/roughly.rs`: `(self - other).abs() < EPSILON`. -/
def roughly_equal (a b : ℝ) : Prop := |a - b| < EPSILON

/-! ## tuple.rs -/

/-- Rust `Tuple([f64; 4])` from `src/tuple.rs`, with the four accessors as fields. -/
structure Tuple where
  x : ℝ
  y : ℝ
  z : ℝ
  w : ℝ

/-- Rust `Point(Tuple)` from `src/tuple.rs`. -/
structure Point where
  t : Tuple

/-- Rust `Vector(Tuple)` from `src/tuple.rs`. -/
structure Vector where
  t : Tuple

/-- Rust `Point::new(x, y, z)`: a `Tuple` with `w = 1`. -/
def Point.new (x y z : ℝ) : Point := ⟨⟨x, y, z, 1⟩⟩

/-- Rust `Vector::new(x, y, z)`: a `Tuple` with `w = 0`. -/
def Vector.new (x y z : ℝ) : Vector := ⟨⟨x, y, z, 0⟩⟩

/-- Free function `point(x, y, z)` from `src/tuple.rs`. -/
def point (x y z : ℝ) : Point := Point.new x y z

/-- Free function `vector(x, y, z)` from `src/tuple.rs`. -/
def vector (x y z : ℝ) : Vector := Vector.new x y z

/-- Rust `impl Add for Tuple`: component-wise addition. -/
def Tuple.add (a b : Tuple) : Tuple := ⟨a.x + b.x, a.y + b.y, a.z + b.z, a.w + b.w⟩

/-- Rust `impl Sub for Tuple`: component-wise subtraction. -/
def Tuple.sub (a b : Tuple) : Tuple := ⟨a.x - b.x, a.y - b.y, a.z - b.z, a.w - b.w⟩

/-- Rust `impl Add<Vector> for Point`: `Point(self.0 + other.0)`. -/
instance : HAdd Point Vector Point := ⟨fun p v => ⟨p.t.add v.t⟩⟩

/-- Rust `impl Sub<Point> for Point`: `Vector(self.0 - other.0)`. -/
instance : HSub Point Point Vector := ⟨fun p q => ⟨p.t.sub q.t⟩⟩

/-- Rust `impl Sub<Vector> for Point`: `Point(self.0 - other.0)`. -/
instance : HSub Point Vector Point := ⟨fun p v => ⟨p.t.sub v.t⟩⟩

/-- Rust `Vector::dot`: the four-component dot product from `src/tuple.rs`. -/
def Vector.dot (a b : Vector) : ℝ :=
  a.t.x * b.t.x + a.t.y * b.t.y + a.t.z * b.t.z + a.t.w * b.t.w

/-- Rust `impl PartialEq for Tuple`: component-wise `roughly_equal`. -/
def tuple_eq (a b : Tuple) : Prop :=
  roughly_equal a.x b.x ∧ roughly_equal a.y b.y ∧
    roughly_equal a.z b.z ∧ roughly_equal a.w b.w

/-- Rust `impl PartialEq for Point`: delegates to the `Tuple` comparison. -/
def point_eq (a b : Point) : Prop := tuple_eq a.t b.t

/-- Rust `impl PartialEq for Vector`: delegates to the `Tuple` comparison. -/
def vector_eq (a b : Vector) : Prop := tuple_eq a.t b.t

/-! ## matrix.rs -/

/-- Rust `struct Matrix { rows, cols, data: Vec<f64> }` from `src/matrix.rs`,
row-major flat storage. -/
structure Matrix where
  rows : Nat
  cols : Nat
  data : List ℝ

/-- Rust `Matrix::new(rows, cols)`: zero-filled `rows*cols` storage. -/
def Matrix.new (rows cols : Nat) : Matrix := ⟨rows, cols, List.replicate (rows * cols) 0⟩

/-- Rust `Matrix::with_values(rows, cols, values)`. The Rust constructor panics when
`values.len() ≠ rows*cols`; every matrix built below satisfies that invariant,
so the check is not modelled. -/
def Matrix.with_values (rows cols : Nat) (values : List ℝ) : Matrix := ⟨rows, cols, values⟩

/-- Rust `Matrix::value_at(row, col)` with its two bounds `assert!`s and the `Vec`
index panic, all modelled as `none`. -/
def Matrix.value_at (m : Matrix) (row col : Nat) : Option ℝ :=
  if row < m.rows then
    if col < m.cols then m.data[m.cols * row + col]?
    else none
  else none

/-- Total in-bounds reading helper: the value `value_at` yields whenever its
checks pass. The internal matrix algorithms below only ever read in-bounds
cells of well-formed matrices, where this coincides with `value_at`. -/
def Matrix.value_atD (m : Matrix) (row col : Nat) : ℝ :=
  m.data.getD (m.cols * row + col) 0

/-- Rust `Matrix::set_value(row, col, value)`. The Rust method performs **no**
row/col assertions: it writes `data[cols*row + col]` directly, and the only
failure is the `Vec` index panic when that flat index is out of storage range
(modelled as `none`). -/
def Matrix.set_value (m : Matrix) (row col : Nat) (value : ℝ) : Option Matrix :=
  if m.cols * row + col < m.data.length then
    some ⟨m.rows, m.cols, m.data.set (m.cols * row + col) value⟩
  else none

/-- Total writing helper used by the construction loops below (which only ever
write in-storage-range cells, where `set_value` succeeds). -/
def Matrix.set_valueD (m : Matrix) (row col : Nat) (value : ℝ) : Matrix :=
  ⟨m.rows, m.cols, m.data.set (m.cols * row + col) value⟩

/-- Rust `Matrix::identity4()`. -/
def Matrix.identity4 : Matrix :=
  Matrix.with_values 4 4 [1, 0, 0, 0, 0, 1, 0, 0, 0, 0, 1, 0, 0, 0, 0, 1]

/-- Rust `Matrix::row(row)`: the row as a list. -/
def Matrix.row (m : Matrix) (row : Nat) : List ℝ :=
  (List.range m.cols).map fun col => m.value_atD row col

/-- Rust `Matrix::col(col)`: the column as a list. -/
def Matrix.col (m : Matrix) (col : Nat) : List ℝ :=
  (List.range m.rows).map fun row => m.value_atD row col

/-- Rust `Matrix::calculate_cell(row, col, m1, m2)`: dot product of a row of `m1`
with a column of `m2`. -/
def Matrix.calculate_cell (row col : Nat) (m1 m2 : Matrix) : ℝ :=
  (((m1.row row).zip (m2.col col)).map fun p => p.1 * p.2).sum

/-- Rust `Matrix::submatrix(remove_row, remove_col)` with its three panics
modelled as `none`: a 1-row or 1-col source, `remove_row ≥ rows`, or
`remove_col ≥ cols`. Otherwise the nested copy loops write each surviving
cell to its shifted destination in a zero-filled `(rows-1)×(cols-1)` matrix
(those writes are always within storage range, so the total write helper is
used inside the loops). -/
def Matrix.submatrix (m : Matrix) (remove_row remove_col : Nat) : Option Matrix :=
  if m.rows = 1 ∨ m.cols = 1 then none
  else if remove_row ≥ m.rows then none
  else if remove_col ≥ m.cols then none
  else
    some <|
      (List.range m.rows).foldl
        (fun result row =>
          if row ≠ remove_row then
            (List.range m.cols).foldl
              (fun result col =>
                if col ≠ remove_col then
                  let dest_row := if row < remove_row then row else row - 1
                  let dest_col := if col < remove_col then col else col - 1
                  result.set_valueD dest_row dest_col (m.value_atD row col)
                else result)
              result
          else result)
        (Matrix.new (m.rows - 1) (m.cols - 1))

/-- Rust `Matrix::determinant()`, fuelled by `rows + 1` so the cofactor
recursion is structural; a recursive call always receives a submatrix with one
row fewer together with fuel one smaller, so the fuel-0 branch is never
reached from `determinant` (the chain stops earlier in `none` instead, e.g.
the 1×1 determinant panics through `submatrix`). The base case 2×2 reads
`data[0..3]` directly, as the source does (a `Vec` index panic is `none`);
otherwise it expands along row 0 through the bounds-checked `value_at`,
inlining `cofactor`'s `minor * (-1)^(row+col)` with
`minor = submatrix(row,col).determinant()`; any panic aborts the whole
computation with `none`. -/
def Matrix.det_fuel : Nat → Matrix → Option ℝ
  | 0, _ => none
  | fuel + 1, m =>
    if m.cols ≠ 2 ∨ m.rows ≠ 2 then
      (List.range m.cols).foldlM
        (fun det col => do
          let v ← m.value_at 0 col
          let sub ← m.submatrix 0 col
          let minor ← Matrix.det_fuel fuel sub
          pure (det + v * (minor * (if (0 + col) % 2 = 1 then (-1 : ℝ) else 1))))
        0
    else do
      let d0 ← m.data[0]?
      let d1 ← m.data[1]?
      let d2 ← m.data[2]?
      let d3 ← m.data[3]?
      pure (d0 * d3 - d1 * d2)

/-- Rust `Matrix::determinant()`: `none` models a panic anywhere inside the
cofactor expansion (in particular the 1×1 case panics via `submatrix`). -/
def Matrix.determinant (m : Matrix) : Option ℝ := Matrix.det_fuel (m.rows + 1) m

/-- Rust `Matrix::minor(row, col) = submatrix(row, col).determinant()`;
panics (`none`) propagate, so the minor of a 2×2 matrix panics (its 1×1
submatrix has no determinant in the source). -/
def Matrix.minor (m : Matrix) (row col : Nat) : Option ℝ :=
  (m.submatrix row col).bind fun sub => sub.determinant

/-- Rust `Matrix::cofactor(row, col) = minor(row, col) * if (row+col) % 2 == 1 { -1 } else { 1 }`,
propagating a `minor` panic. -/
def Matrix.cofactor (m : Matrix) (row col : Nat) : Option ℝ :=
  (m.minor row col).map fun v => v * (if (row + col) % 2 = 1 then (-1 : ℝ) else 1)

open Classical in
/-- Rust `Matrix::invertible()`: `!self.determinant().approx_eq_ulps(&0.0, 2)`,
panicking (`none`) whenever `determinant()` panics. Within 2 ULPs of `+0.0`
lie only `0.0` itself and the two smallest subnormals, so over the reals the
ULP test is modelled as `determinant ≠ 0`. Note: the source does **not** use
the crate's 1e-5 `roughly_equal` here. -/
noncomputable def Matrix.invertible (m : Matrix) : Option Bool :=
  m.determinant.map fun d => !decide (d = 0)

open Classical in
/-- Rust `Matrix::inverse()`: panics (`none`) unless `invertible()` returns
`true` (including when `invertible()` itself panics), then recomputes the
determinant and fills a fresh matrix with
`m2[col][row] = cofactor(row, col) / determinant`, propagating any panic of
`cofactor` (so inverting an invertible 2×2 matrix panics: its cofactors need
1×1 determinants) or of the bounds-checked `set_value`. -/
noncomputable def Matrix.inverse (m : Matrix) : Option Matrix :=
  if m.invertible ≠ some true then none
  else do
    let self_determinant ← m.determinant
    (List.range m.rows).foldlM
      (fun m2 row =>
        (List.range m.cols).foldlM
          (fun m2 col => do
            let c ← m.cofactor row col
            m2.set_value col row (c / self_determinant))
          m2)
      (Matrix.new m.rows m.cols)

/-- Proof-layer total shadow of `submatrix`: the matrix the copy loops build
when no panic fires (the guards are dropped; `submatrix_some` below shows
`submatrix = some (submatrix_val …)` whenever the source does not panic). -/
def Matrix.submatrix_val (m : Matrix) (remove_row remove_col : Nat) : Matrix :=
  (List.range m.rows).foldl
    (fun result row =>
      if row ≠ remove_row then
        (List.range m.cols).foldl
          (fun result col =>
            if col ≠ remove_col then
              let dest_row := if row < remove_row then row else row - 1
              let dest_col := if col < remove_col then col else col - 1
              result.set_valueD dest_row dest_col (m.value_atD row col)
            else result)
          result
      else result)
    (Matrix.new (m.rows - 1) (m.cols - 1))

/-- Proof-layer total shadow of `det_fuel`: the value the cofactor expansion
computes when no panic fires (`det_fuel_some` below). -/
def Matrix.det_fuel_val : Nat → Matrix → ℝ
  | 0, _ => 0
  | fuel + 1, m =>
    if m.cols ≠ 2 ∨ m.rows ≠ 2 then
      (List.range m.cols).foldl
        (fun det col =>
          det + m.value_atD 0 col *
            (Matrix.det_fuel_val fuel (m.submatrix_val 0 col) *
              (if (0 + col) % 2 = 1 then (-1 : ℝ) else 1)))
        0
    else
      m.data.getD 0 0 * m.data.getD 3 0 - m.data.getD 1 0 * m.data.getD 2 0

/-- Proof-layer total shadow of `determinant`. -/
def Matrix.determinant_val (m : Matrix) : ℝ := Matrix.det_fuel_val (m.rows + 1) m

/-- Proof-layer total shadow of `minor`. -/
def Matrix.minor_val (m : Matrix) (row col : Nat) : ℝ :=
  (m.submatrix_val row col).determinant_val

/-- Proof-layer total shadow of `cofactor`. -/
def Matrix.cofactor_val (m : Matrix) (row col : Nat) : ℝ :=
  m.minor_val row col * (if (row + col) % 2 = 1 then (-1 : ℝ) else 1)

/-- Rust `impl Mul for Matrix`: row-by-column product. The source panics on
`m1.cols ≠ m2.rows`; every product taken below is dimension-compatible. -/
def Matrix.mul (m1 m2 : Matrix) : Matrix :=
  (List.range m1.rows).foldl
    (fun result row =>
      (List.range m2.cols).foldl
        (fun result col => result.set_valueD row col (Matrix.calculate_cell row col m1 m2))
        result)
    (Matrix.new m1.rows m2.cols)

instance : Mul Matrix := ⟨Matrix.mul⟩

/-- Rust `impl PartialEq for Matrix`: same shape, then every zipped pair of entries
compared with `approx_eq_ulps(_, 2)` — modelled as exact equality on `ℝ`.
Mismatched shapes compare unequal. Note: the source's `==` does **not** use
the crate's 1e-5 `roughly_equal`. -/
def matrix_eq (m1 m2 : Matrix) : Prop :=
  m1.rows = m2.rows ∧ m1.cols = m2.cols ∧
    ∀ p ∈ m1.data.zip m2.data, p.1 = p.2

/-- Rust `impl RoughlyEqual for Matrix`: same shape, then every zipped pair of
entries compared with the 1e-5 `roughly_equal`. -/
def matrix_roughly_equal (m1 m2 : Matrix) : Prop :=
  m1.rows = m2.rows ∧ m1.cols = m2.cols ∧
    ∀ p ∈ m1.data.zip m2.data, roughly_equal p.1 p.2

/-- Rust `Matrix::translation(x, y, z)`. -/
def Matrix.translation (x y z : ℝ) : Matrix :=
  Matrix.with_values 4 4 [1, 0, 0, x, 0, 1, 0, y, 0, 0, 1, z, 0, 0, 0, 1]

/-- Rust `Matrix::scaling(x, y, z)`. -/
def Matrix.scaling (x y z : ℝ) : Matrix :=
  Matrix.with_values 4 4 [x, 0, 0, 0, 0, y, 0, 0, 0, 0, z, 0, 0, 0, 0, 1]

/-- Rust `Matrix::rotation_x(r)`. -/
noncomputable def Matrix.rotation_x (r : ℝ) : Matrix :=
  Matrix.with_values 4 4
    [1, 0, 0, 0,
     0, Real.cos r, -Real.sin r, 0,
     0, Real.sin r, Real.cos r, 0,
     0, 0, 0, 1]

/-- Rust `Matrix::rotation_y(r)`. -/
noncomputable def Matrix.rotation_y (r : ℝ) : Matrix :=
  Matrix.with_values 4 4
    [Real.cos r, 0, Real.sin r, 0,
     0, 1, 0, 0,
     -Real.sin r, 0, Real.cos r, 0,
     0, 0, 0, 1]

/-- Rust `Matrix::rotation_z(r)`. -/
noncomputable def Matrix.rotation_z (r : ℝ) : Matrix :=
  Matrix.with_values 4 4
    [Real.cos r, -Real.sin r, 0, 0,
     Real.sin r, Real.cos r, 0, 0,
     0, 0, 1, 0,
     0, 0, 0, 1]

/-- Rust `Matrix::shearing(xy, xz, yx, yz, zx, zy)`. -/
def Matrix.shearing (xy xz yx yz zx zy : ℝ) : Matrix :=
  Matrix.with_values 4 4
    [1, xy, xz, 0,
     yx, 1, yz, 0,
     zx, zy, 1, 0,
     0, 0, 0, 1]

/-- Rust `Matrix::translate(x, y, z) = Self::translation(x, y, z) * self`. -/
def Matrix.translate (m : Matrix) (x y z : ℝ) : Matrix := Matrix.translation x y z * m

/-- Rust `Matrix::rotate_x(r) = Self::rotation_x(r) * self`. -/
noncomputable def Matrix.rotate_x (m : Matrix) (r : ℝ) : Matrix := Matrix.rotation_x r * m

/-- Rust `Matrix::rotate_y(r) = Self::rotation_y(r) * self`. -/
noncomputable def Matrix.rotate_y (m : Matrix) (r : ℝ) : Matrix := Matrix.rotation_y r * m

/-- Rust `Matrix::rotate_z(r) = Self::rotation_z(r) * self`. -/
noncomputable def Matrix.rotate_z (m : Matrix) (r : ℝ) : Matrix := Matrix.rotation_z r * m

/-- Rust `Matrix::scale(x, y, z) = Self::scaling(x, y, z) * self`. -/
def Matrix.scale (m : Matrix) (x y z : ℝ) : Matrix := Matrix.scaling x y z * m

/-- Rust `Matrix::shear(..) = Self::shearing(..) * self`. -/
def Matrix.shear (m : Matrix) (xy xz yx yz zx zy : ℝ) : Matrix :=
  Matrix.shearing xy xz yx yz zx zy * m

/-- Rust `impl From<Point> for Matrix`: the 4×1 column `[x, y, z, 1.0]`. -/
def Matrix.from_point (p : Point) : Matrix :=
  Matrix.with_values 4 1 [p.t.x, p.t.y, p.t.z, 1]

/-- Rust `impl From<Vector> for Matrix`: the 4×1 column `[x, y, z, 0.0]`. -/
def Matrix.from_vector (v : Vector) : Matrix :=
  Matrix.with_values 4 1 [v.t.x, v.t.y, v.t.z, 0]

/-- Rust `impl From<Matrix> for Tuple`: reads the four rows of a 4×1 column via
`value_at` (always in bounds there). -/
def Tuple.from_matrix (m : Matrix) : Tuple :=
  ⟨m.value_atD 0 0, m.value_atD 1 0, m.value_atD 2 0, m.value_atD 3 0⟩

/-- Rust `impl Mul<Point> for Matrix`: `(self * Matrix::from(t)).into()`. -/
instance : HMul Matrix Point Point := ⟨fun m p => ⟨Tuple.from_matrix (m * Matrix.from_point p)⟩⟩

/-- Rust `impl Mul<Vector> for Matrix`: `(self * Matrix::from(t)).into()`. -/
instance : HMul Matrix Vector Vector := ⟨fun m v => ⟨Tuple.from_matrix (m * Matrix.from_vector v)⟩⟩

/-! ## ray.rs, shapes.rs, intersection.rs, spheres.rs -/

/-- Rust `struct Ray { origin: Point, direction: Vector }` from `src/ray.rs`. -/
structure Ray where
  origin : Point
  direction : Vector

/-- Rust `Ray::new(origin, direction)`. -/
def Ray.new (origin : Point) (direction : Vector) : Ray := ⟨origin, direction⟩

/-- Rust `struct Sphere {}` from `src/spheres.rs`: stateless unit sphere. -/
structure Sphere where

/-- Rust `enum Shape { Sphere(Sphere) }` from `src/shapes.rs`. -/
inductive Shape where
  | Sphere (s : RTC.Sphere) : Shape

/-- Rust `struct Intersection { t: f64, object: Shape }` from `src/intersection.rs`. -/
structure Intersection where
  t : ℝ
  object : Shape

/-- Rust `Intersection::new(t, object)`. -/
def Intersection.new (t : ℝ) (object : Shape) : Intersection := ⟨t, object⟩

/-- The Mathlib image of a (4×4) source matrix, used to relate the source's
cofactor inverse to Mathlib's `Matrix.inv`. -/
noncomputable def Matrix.toM4 (m : Matrix) : MathM4 :=
  Matrix.of fun i j => m.value_atD i j

/-- Rust `Sphere::intersect(ray)` from `src/spheres.rs`: the closed-form quadratic
against the unit sphere at the origin. -/
noncomputable def Sphere.intersect (s : Sphere) (ray : Ray) : List Intersection :=
  let sphere_to_ray : Vector := ray.origin - point 0 0 0
  let a := ray.direction.dot ray.direction
  let b := 2 * ray.direction.dot sphere_to_ray
  let c := sphere_to_ray.dot sphere_to_ray - 1
  let discriminant := b * b - 4 * a * c
  if discriminant < 0 then []
  else
    let t1 := (-b - Real.sqrt discriminant) / (2 * a)
    let t2 := (-b + Real.sqrt discriminant) / (2 * a)
    [Intersection.new t1 (Shape.Sphere s), Intersection.new t2 (Shape.Sphere s)]

end RTC

/-! ## Mathlib 4×4 matrix facts

Wrappers around Mathlib's `Matrix` lemmas, stated at top level where the name
`Matrix` still refers to Mathlib's type. -/

/-- Explicit cofactor expansion of a Mathlib 4×4 determinant (this Mathlib
version has `det_fin_three` but no 4×4 counterpart). -/
theorem mathM4_det_expand (M : MathM4) :
    M.det =
      M 0 0 * (M 1 1 * (M 2 2 * M 3 3 - M 2 3 * M 3 2) -
        M 1 2 * (M 2 1 * M 3 3 - M 2 3 * M 3 1) +
        M 1 3 * (M 2 1 * M 3 2 - M 2 2 * M 3 1)) -
      M 0 1 * (M 1 0 * (M 2 2 * M 3 3 - M 2 3 * M 3 2) -
        M 1 2 * (M 2 0 * M 3 3 - M 2 3 * M 3 0) +
        M 1 3 * (M 2 0 * M 3 2 - M 2 2 * M 3 0)) +
      M 0 2 * (M 1 0 * (M 2 1 * M 3 3 - M 2 3 * M 3 1) -
        M 1 1 * (M 2 0 * M 3 3 - M 2 3 * M 3 0) +
        M 1 3 * (M 2 0 * M 3 1 - M 2 1 * M 3 0)) -
      M 0 3 * (M 1 0 * (M 2 1 * M 3 2 - M 2 2 * M 3 1) -
        M 1 1 * (M 2 0 * M 3 2 - M 2 2 * M 3 0) +
        M 1 2 * (M 2 0 * M 3 1 - M 2 1 * M 3 0)) := by
  simp only [Matrix.det_succ_row_zero, ← Nat.not_even_iff_odd, Matrix.submatrix_apply,
    Fin.succ_zero_eq_one, Matrix.submatrix_submatrix, Matrix.det_unique, Fin.default_eq_zero,
    Function.comp_apply, Fin.succ_one_eq_two, Fin.sum_univ_succ, Fin.val_zero,
    Fin.zero_succAbove, Finset.univ_unique, Fin.val_succ, Fin.val_eq_zero,
    Fin.succ_succAbove_zero, Finset.sum_singleton, Fin.succ_succAbove_one, even_add_self,
    Fin.succ_succAbove_succ, show (Fin.succ 2 : Fin 4) = 3 from rfl,
    show ((1 : Fin 4).succAbove 2) = 3 from rfl, show ((2 : Fin 4).succAbove 2) = 3 from rfl,
    show ((3 : Fin 4).succAbove 2) = 2 from rfl]
  ring

/-- Entry of a Mathlib 4×4 product as a four-term sum. -/
theorem mathM4_mul_entry (A B : MathM4) (i j : Fin 4) :
    (A * B) i j = A i 0 * B 0 j + A i 1 * B 1 j + A i 2 * B 2 j + A i 3 * B 3 j := by
  rw [Matrix.mul_apply, Fin.sum_univ_four]

/-- A right inverse of a Mathlib 4×4 matrix is its `Matrix.inv`. -/
theorem mathM4_inv_eq (A B : MathM4) (h : A * B = 1) : A⁻¹ = B :=
  Matrix.inv_eq_right_inv h

/-- A Mathlib 4×4 matrix with nonzero determinant times its inverse is `1`. -/
theorem mathM4_mul_inv (A : MathM4) (h : A.det ≠ 0) : A * A⁻¹ = 1 :=
  Matrix.mul_nonsing_inv A (isUnit_iff_ne_zero.mpr h)

/-- Double inversion of a Mathlib 4×4 matrix with nonzero determinant. -/
theorem mathM4_inv_inv (A : MathM4) (h : A.det ≠ 0) : A⁻¹⁻¹ = A :=
  Matrix.nonsing_inv_nonsing_inv A (isUnit_iff_ne_zero.mpr h)

/-- Determinant of the inverse of a Mathlib 4×4 real matrix. -/
theorem mathM4_det_inv (A : MathM4) : A⁻¹.det = A.det⁻¹ := by
  rw [Matrix.det_nonsing_inv, Ring.inverse_eq_inv']

/-- Entries of the identity Mathlib 4×4 matrix. -/
theorem mathM4_one_entry (i j : Fin 4) :
    (1 : MathM4) i j = if i = j then 1 else 0 :=
  Matrix.one_apply

namespace RTC

/-! ## Panic/value correspondence and evaluation lemmas -/

/-- Preservation of an invariant along a matrix-valued left fold. -/
theorem foldl_matrix_preserve {α : Type} (P : Matrix → Prop) (f : Matrix → α → Matrix)
    (l : List α) (init : Matrix) (h0 : P init)
    (hstep : ∀ acc a, P acc → P (f acc a)) : P (l.foldl f init) := by
  induction l generalizing init with
  | nil => exact h0
  | cons a l ih => exact ih _ (hstep _ _ h0)

/-- Dimensions and storage size of the submatrix copy loops: one row and one
column fewer, storage of exactly that size (writes preserve shape and
length). -/
theorem submatrix_val_spec (m : Matrix) (remove_row remove_col : Nat) :
    (m.submatrix_val remove_row remove_col).rows = m.rows - 1 ∧
    (m.submatrix_val remove_row remove_col).cols = m.cols - 1 ∧
    (m.submatrix_val remove_row remove_col).data.length = (m.rows - 1) * (m.cols - 1) := by
  rw [Matrix.submatrix_val]
  apply foldl_matrix_preserve
    (fun x => x.rows = m.rows - 1 ∧ x.cols = m.cols - 1 ∧
      x.data.length = (m.rows - 1) * (m.cols - 1))
  · exact ⟨rfl, rfl, by simp [Matrix.new]⟩
  · intro acc a h
    dsimp only
    split
    · apply foldl_matrix_preserve
        (fun x => x.rows = m.rows - 1 ∧ x.cols = m.cols - 1 ∧
          x.data.length = (m.rows - 1) * (m.cols - 1)) _ _ _ h
      intro acc2 a2 h2
      split
      · simpa [Matrix.set_valueD] using h2
      · exact h2
    · exact h

/-- A monadic left fold over `Option` whose every step succeeds is the plain
fold of the step values. -/
theorem foldlM_eq_foldl_of_some {α β : Type} (f : β → α → Option β) (g : β → α → β)
    (l : List α) (init : β) (h : ∀ b a, a ∈ l → f b a = some (g b a)) :
    l.foldlM f init = some (l.foldl g init) := by
  induction l generalizing init with
  | nil => rfl
  | cons a l ih =>
    rw [List.foldlM_cons, h init a (by simp), List.foldl_cons]
    simpa using ih (g init a) fun b x hx => h b x (by simp [hx])

/-- Lemma: `value_at` succeeds with the in-bounds cell value whenever its
row/col checks and the storage access succeed. -/
theorem value_at_some (m : Matrix) (row col : Nat) (h1 : row < m.rows)
    (h2 : col < m.cols) (h3 : m.cols * row + col < m.data.length) :
    m.value_at row col = some (m.value_atD row col) := by
  rw [Matrix.value_at, if_pos h1, if_pos h2, Matrix.value_atD,
    List.getElem?_eq_getElem h3, List.getD_eq_getElem _ _ h3]

/-- Lemma: `submatrix` succeeds with the copied matrix whenever none of its
three panic guards fires. -/
theorem submatrix_some (m : Matrix) (remove_row remove_col : Nat)
    (h1 : ¬(m.rows = 1 ∨ m.cols = 1)) (h2 : remove_row < m.rows)
    (h3 : remove_col < m.cols) :
    m.submatrix remove_row remove_col = some (m.submatrix_val remove_row remove_col) := by
  rw [Matrix.submatrix, if_neg h1, if_neg (by omega), if_neg (by omega)]
  rfl

/-- Core correspondence: on a square matrix of side at least 2 with full
storage, the cofactor expansion never panics and computes the total shadow
value. (On side exactly 1 the source panics instead, via `submatrix`.) -/
theorem det_fuel_some : ∀ (fuel : Nat) (m : Matrix), m.rows = m.cols → 2 ≤ m.rows →
    m.data.length = m.rows * m.cols → m.rows < fuel →
    Matrix.det_fuel fuel m = some (Matrix.det_fuel_val fuel m) := by
  intro fuel
  induction fuel with
  | zero => intro m _ _ _ h; omega
  | succ fuel ih =>
    intro m hsq h2 hlen hfuel
    by_cases hbase : m.cols = 2 ∧ m.rows = 2
    · obtain ⟨hc2, hr2⟩ := hbase
      have hlen4 : m.data.length = 4 := by rw [hlen, hr2, hc2]
      simp only [Matrix.det_fuel, Matrix.det_fuel_val, hc2, hr2, ne_eq,
        not_true_eq_false, or_self, if_false]
      simp [List.getElem?_eq_getElem, hlen4, List.getD_eq_getElem]
    · have hcond : m.cols ≠ 2 ∨ m.rows ≠ 2 := by tauto
      have hr3 : 3 ≤ m.rows := by
        rcases hcond with h | h <;> omega
      simp only [Matrix.det_fuel, Matrix.det_fuel_val, if_pos hcond]
      apply foldlM_eq_foldl_of_some
      intro b col hcol
      have hcol4 : col < m.cols := List.mem_range.mp hcol
      obtain ⟨hsr, hsc, hsl⟩ := submatrix_val_spec m 0 col
      simp only [value_at_some m 0 col (by omega) hcol4
          (by rw [hlen]
              calc m.cols * 0 + col = col := by ring
                _ < m.cols := hcol4
                _ ≤ m.rows * m.cols := Nat.le_mul_of_pos_left _ (by omega)),
        submatrix_some m 0 col (by omega) (by omega) hcol4,
        ih (m.submatrix_val 0 col) (by omega) (by omega) (by rw [hsl, hsr, hsc])
          (by omega),
        Option.bind_eq_bind, Option.some_bind', Option.pure_def]

/-- Lemma: `determinant()` succeeds on square matrices of side at least 2 with
full storage, yielding the shadow value. -/
theorem determinant_some (m : Matrix) (hsq : m.rows = m.cols) (h2 : 2 ≤ m.rows)
    (hlen : m.data.length = m.rows * m.cols) :
    m.determinant = some m.determinant_val :=
  det_fuel_some (m.rows + 1) m hsq h2 hlen (by omega)

/-- Lemma: `cofactor(row, col)` succeeds on square matrices of side at least 3
(the submatrix then has side at least 2, so its determinant does not panic),
yielding the shadow value. On a 2×2 matrix `cofactor` panics: its 1×1
submatrix has no determinant in the source. -/
theorem cofactor_some (m : Matrix) (row col : Nat) (hsq : m.rows = m.cols)
    (h3 : 3 ≤ m.rows)
    (hr : row < m.rows) (hc : col < m.cols) :
    m.cofactor row col = some (m.cofactor_val row col) := by
  obtain ⟨hsr, hsc, hsl⟩ := submatrix_val_spec m row col
  rw [Matrix.cofactor, Matrix.minor, submatrix_some m row col (by omega) hr hc,
    Option.some_bind',
    determinant_some (m.submatrix_val row col) (by omega) (by omega)
      (by rw [hsl, hsr, hsc])]
  rfl

/-- Lemma: `invertible()` returns `true` exactly when `determinant()` computes
a nonzero value. -/
theorem invertible_true_iff (m : Matrix) :
    m.invertible = some true ↔ ∃ d, m.determinant = some d ∧ d ≠ 0 := by
  rcases hdet : m.determinant with _ | d <;>
    simp [Matrix.invertible, hdet]

set_option maxHeartbeats 3200000 in
/-- Laplace expansion of a 4×4 determinant along any row, including the
alien-cofactor vanishing: pairing row `i` with the cofactors of row `j` yields
the determinant when `i = j` and `0` otherwise (stated on the total
shadows). -/
theorem laplace4 (m : Matrix) (hr : m.rows = 4) (hc : m.cols = 4)
    (i j : Nat) (hi : i < 4) (hj : j < 4) :
    m.value_atD i 0 * m.cofactor_val j 0 + m.value_atD i 1 * m.cofactor_val j 1
      + m.value_atD i 2 * m.cofactor_val j 2 + m.value_atD i 3 * m.cofactor_val j 3
      = if i = j then m.determinant_val else 0 := by
  rcases m with ⟨rows, cols, data⟩
  simp only at hr hc
  subst hr; subst hc
  interval_cases i <;> interval_cases j <;>
    (simp [Matrix.cofactor_val, Matrix.minor_val, Matrix.determinant_val,
      Matrix.det_fuel_val, Matrix.submatrix_val, Matrix.set_valueD, Matrix.value_atD,
      Matrix.new, List.range_succ]
     ring)

set_option maxHeartbeats 1000000 in
/-- The shadow determinant of any 4×4 matrix agrees with the determinant of
its Mathlib image. -/
theorem determinant4_toM4 (m : Matrix) (hr : m.rows = 4) (hc : m.cols = 4) :
    m.determinant_val = m.toM4.det := by
  rcases m with ⟨rows, cols, data⟩
  simp only at hr hc
  subst hr; subst hc
  rw [mathM4_det_expand]
  simp [Matrix.determinant_val, Matrix.det_fuel_val, Matrix.submatrix_val,
    Matrix.set_valueD, Matrix.value_atD, Matrix.new, Matrix.toM4, List.range_succ,
    show ((0 : Fin 4) : Nat) = 0 from rfl, show ((1 : Fin 4) : Nat) = 1 from rfl,
    show ((2 : Fin 4) : Nat) = 2 from rfl, show ((3 : Fin 4) : Nat) = 3 from rfl]
  ring

set_option maxHeartbeats 2000000 in
/-- On a 4×4 invertible matrix, `inverse` succeeds (no cofactor panics at this
size) and fills, at flat position `4*i + j`, the value
`cofactor(j, i) / determinant` — the transposed cofactor grid over the
determinant. -/
theorem inverse4_eval (m : Matrix) (hr : m.rows = 4) (hc : m.cols = 4)
    (hl : m.data.length = 16) (hd : m.invertible = some true) :
    m.inverse = some (Matrix.with_values 4 4
      [m.cofactor_val 0 0 / m.determinant_val, m.cofactor_val 1 0 / m.determinant_val,
       m.cofactor_val 2 0 / m.determinant_val, m.cofactor_val 3 0 / m.determinant_val,
       m.cofactor_val 0 1 / m.determinant_val, m.cofactor_val 1 1 / m.determinant_val,
       m.cofactor_val 2 1 / m.determinant_val, m.cofactor_val 3 1 / m.determinant_val,
       m.cofactor_val 0 2 / m.determinant_val, m.cofactor_val 1 2 / m.determinant_val,
       m.cofactor_val 2 2 / m.determinant_val, m.cofactor_val 3 2 / m.determinant_val,
       m.cofactor_val 0 3 / m.determinant_val, m.cofactor_val 1 3 / m.determinant_val,
       m.cofactor_val 2 3 / m.determinant_val, m.cofactor_val 3 3 / m.determinant_val]) := by
  have hdet := determinant_some m (by omega) (by omega) (by rw [hl, hr, hc])
  have hcof : ∀ r c : Nat, r < 4 → c < 4 → m.cofactor r c = some (m.cofactor_val r c) :=
    fun r c h1 h2 => cofactor_some m r c (by omega) (by omega) (by omega) (by omega)
  rw [Matrix.inverse, if_neg (by simp [hd])]
  rw [hdet]
  simp only [Option.bind_eq_bind, Option.some_bind']
  rw [hr, hc]
  simp [List.range_succ, hcof, Matrix.set_value, Matrix.new, Matrix.set_valueD,
    Matrix.with_values, Option.bind_eq_bind, Option.some_bind', List.set]

end RTC

namespace RTC

/-! ## Operator-instance unfolding lemmas -/

/-- Unfolding: `Matrix * Matrix` unfolds to `Matrix.mul`. -/
theorem matrix_mul_def (m1 m2 : Matrix) : m1 * m2 = m1.mul m2 := rfl

/-- Unfolding: `Matrix * Point` unfolds to column conversion, product, readback. -/
theorem matrix_mul_point_def (m : Matrix) (p : Point) :
    m * p = ⟨Tuple.from_matrix (m * Matrix.from_point p)⟩ := rfl

/-- Unfolding: `Matrix * Vector` unfolds to column conversion, product, readback. -/
theorem matrix_mul_vector_def (m : Matrix) (v : Vector) :
    m * v = ⟨Tuple.from_matrix (m * Matrix.from_vector v)⟩ := rfl

/-- Unfolding: `Point + Vector` unfolds to tuple addition. -/
theorem point_add_vector_def (p : Point) (v : Vector) : p + v = ⟨p.t.add v.t⟩ := rfl

/-- Unfolding: `Point - Point` unfolds to tuple subtraction. -/
theorem point_sub_point_def (p q : Point) : p - q = (⟨p.t.sub q.t⟩ : Vector) := rfl

/-- Unfolding: `Point - Vector` unfolds to tuple subtraction. -/
theorem point_sub_vector_def (p : Point) (v : Vector) : p - v = (⟨p.t.sub v.t⟩ : Point) := rfl

/-! ## C8: translation leaves Vectors unchanged -/

/-- C8. For every Vector `v` (as produced by the `vector` constructor, i.e.
`w = 0`) and all scalars `x, y, z`, `translation(x, y, z) * v == v`: the
translation column is cancelled by the vector's `w = 0` homogeneous
coordinate, so the product compares equal (component-wise `roughly_equal`)
to the original vector. -/
theorem C8_translation_ignores_vectors (x y z vx vy vz : ℝ) :
    vector_eq (Matrix.translation x y z * vector vx vy vz) (vector vx vy vz) := by
  simp only [matrix_mul_vector_def, matrix_mul_def, vector, Vector.new,
    Matrix.translation, Matrix.from_vector, Matrix.with_values, Matrix.mul,
    Matrix.calculate_cell, Matrix.row, Matrix.col, Matrix.new, Matrix.set_valueD,
    Matrix.value_atD, Tuple.from_matrix, vector_eq, tuple_eq, roughly_equal, EPSILON,
    List.range_succ]
  norm_num

/-! ## C9: (p + v) - v round-trips -/

/-- C9. For every Point `p` and Vector `v`, `(p + v) - v == p` component-wise
(`roughly_equal`); over the reals the round trip is exact, so each component
differs by `0 < EPSILON`. -/
theorem C9_add_sub_round_trip (px py pz vx vy vz : ℝ) :
    point_eq (point px py pz + vector vx vy vz - vector vx vy vz) (point px py pz) := by
  simp only [point_add_vector_def, point_sub_vector_def, point, vector, Point.new,
    Vector.new, Tuple.add, Tuple.sub, point_eq, tuple_eq, roughly_equal, EPSILON]
  norm_num

/-! ## C10: tuple equality is not transitive -/

/-- C10. Tuple `==` (component-wise absolute-difference-below-epsilon) is not
transitive: with x-components `0`, `0.9e-5` and `1.8e-5` the first pair and
the second pair each differ by less than `1e-5`, but the outer pair differs
by `1.8e-5 ≥ 1e-5`. -/
theorem C10_tuple_eq_not_transitive :
    tuple_eq ⟨0, 0, 0, 0⟩ ⟨9 / 1000000, 0, 0, 0⟩ ∧
      tuple_eq ⟨9 / 1000000, 0, 0, 0⟩ ⟨18 / 1000000, 0, 0, 0⟩ ∧
      ¬tuple_eq ⟨0, 0, 0, 0⟩ ⟨18 / 1000000, 0, 0, 0⟩ := by
  simp only [tuple_eq, roughly_equal, EPSILON, abs_lt]
  norm_num

end RTC

namespace RTC

/-- Fact: `√4 = 2`, used by the concrete intersection scenarios. -/
theorem sqrt_four : Real.sqrt 4 = 2 := by
  rw [show (4 : ℝ) = 2 ^ 2 by norm_num, Real.sqrt_sq]; norm_num

/-! ## C1: the sphere-intersection quadratic -/

/-- C1. `Sphere::intersect` is exactly the claimed closed-form quadratic: with
`sphere_to_ray = origin - point(0,0,0)`, `a = d·d`, `b = 2·(d·sphere_to_ray)`,
`c = sphere_to_ray·sphere_to_ray - 1` and `discriminant = b² - 4ac`, it
returns `[]` when the discriminant is negative and otherwise
`[(-b - √disc)/(2a), (-b + √disc)/(2a)]` in that order; and on the ray with
origin `(0,0,-5)` and direction `(0,0,1)` the returned t-values are exactly
`[4, 6]`. -/
theorem C1_intersect_quadratic :
    (∀ (s : Sphere) (ray : Ray),
      s.intersect ray =
        (let sphere_to_ray : Vector := ray.origin - point 0 0 0
         let a := ray.direction.dot ray.direction
         let b := 2 * ray.direction.dot sphere_to_ray
         let c := sphere_to_ray.dot sphere_to_ray - 1
         let discriminant := b * b - 4 * a * c
         if discriminant < 0 then []
         else
           [Intersection.new ((-b - Real.sqrt discriminant) / (2 * a)) (Shape.Sphere s),
            Intersection.new ((-b + Real.sqrt discriminant) / (2 * a)) (Shape.Sphere s)])) ∧
    (Sphere.intersect ⟨⟩ (Ray.new (point 0 0 (-5)) (vector 0 0 1))).map Intersection.t
      = [4, 6] := by
  constructor
  · intro s ray; rfl
  · simp only [Sphere.intersect, Ray.new, point_sub_point_def, point, vector, Point.new,
      Vector.new, Tuple.sub, Vector.dot, Intersection.new]
    norm_num [sqrt_four]

/-! ## C2: intersection count, ordering, and negative hits -/

/-- C2. For every ray, `Sphere::intersect` returns either no intersection or
an ascending pair `t1 ≤ t2`; and intersections behind the ray origin are
returned as negative t-values rather than filtered (ray origin `(0,0,5)`,
direction `(0,0,1)` yields exactly `[-6, -4]`). -/
theorem C2_intersect_ordered_pair :
    (∀ (s : Sphere) (ray : Ray),
      s.intersect ray = [] ∨
        ∃ u1 u2, u1 ≤ u2 ∧
          s.intersect ray =
            [Intersection.new u1 (Shape.Sphere s), Intersection.new u2 (Shape.Sphere s)]) ∧
    (Sphere.intersect ⟨⟩ (Ray.new (point 0 0 5) (vector 0 0 1))).map Intersection.t
      = [-6, -4] := by
  constructor
  · intro s ray
    simp only [Sphere.intersect]
    split_ifs with hd
    · exact Or.inl rfl
    · refine Or.inr ⟨_, _, ?_, rfl⟩
      have ha : (0 : ℝ) ≤ ray.direction.dot ray.direction := by
        simp only [Vector.dot]
        have hx := mul_self_nonneg ray.direction.t.x
        have hy := mul_self_nonneg ray.direction.t.y
        have hz := mul_self_nonneg ray.direction.t.z
        have hw := mul_self_nonneg ray.direction.t.w
        linarith
      rcases eq_or_lt_of_le ha with h0 | hpos
      · simp [← h0]
      · rw [div_le_div_iff_of_pos_right
          (by linarith : (0 : ℝ) < 2 * ray.direction.dot ray.direction)]
        have := Real.sqrt_nonneg
          (2 * ray.direction.dot (ray.origin - point 0 0 0) *
            (2 * ray.direction.dot (ray.origin - point 0 0 0)) -
            4 * ray.direction.dot ray.direction *
              ((ray.origin - point 0 0 0).dot (ray.origin - point 0 0 0) - 1))
        linarith
  · simp only [Sphere.intersect, Ray.new, point_sub_point_def, point, vector, Point.new,
      Vector.new, Tuple.sub, Vector.dot, Intersection.new]
    norm_num [sqrt_four]

end RTC

namespace RTC

/-! ## C3: invertibility test vs the roughly-equal primitive -/

/-- C3 counterexample, both failing clauses of the claim at concrete inputs.
First: the diagonal 2×2 matrix with entries `1e-3` has determinant `1e-6`,
which **is** roughly-equal to `0` (`1e-6 < 1e-5`), yet `invertible()` (a
2-ULP comparison with `0.0`, not a `roughly_equal` test) reports `true`.
Second: on the invertible 2×2 identity, `invertible()` is `true` yet
`inverse()` panics (its cofactors need 1×1 determinants), so `inverse()` does
not fail `exactly when` `invertible()` is false. -/
theorem C3_counterexample :
    ((Matrix.with_values 2 2 [1 / 1000, 0, 0, 1 / 1000]).determinant = some (1 / 1000000) ∧
     (Matrix.with_values 2 2 [1 / 1000, 0, 0, 1 / 1000]).invertible = some true ∧
     roughly_equal (1 / 1000000) 0) ∧
    ((Matrix.with_values 2 2 [1, 0, 0, 1]).invertible = some true ∧
     (Matrix.with_values 2 2 [1, 0, 0, 1]).inverse = none) := by
  refine ⟨⟨?_, ?_, ?_⟩, ?_, ?_⟩
  · simp [Matrix.determinant, Matrix.det_fuel, Matrix.with_values]
    norm_num
  · simp [Matrix.invertible, Matrix.determinant, Matrix.det_fuel, Matrix.with_values]
  · simp only [roughly_equal, EPSILON, abs_lt]
    norm_num
  · simp [Matrix.invertible, Matrix.determinant, Matrix.det_fuel, Matrix.with_values]
  · simp [Matrix.inverse, Matrix.invertible, Matrix.determinant, Matrix.det_fuel,
      Matrix.with_values, Matrix.cofactor, Matrix.minor, Matrix.submatrix,
      Matrix.value_at, Matrix.set_value, Matrix.set_valueD, Matrix.new,
      List.range_succ]

/-- C3 amended. `invertible()` returns true iff the determinant computes to a
value other than `0.0`-within-2-ULPs (modelled over `ℝ` as a nonzero value) —
**not** the 1e-5 `roughly_equal` test, so it may accept determinants smaller
than 1e-5 and `inverse()` may divide by them — and whenever `invertible()` is
not true (it returns false, or itself panics) `inverse()` fails. The converse
direction of the original claim is false: see the counterexample (an
invertible 2×2 matrix on which `inverse()` panics). -/
theorem C3_amended_invertible_inverse (m : Matrix) :
    (m.invertible = some true ↔ ∃ d, m.determinant = some d ∧ d ≠ 0) ∧
    (m.invertible ≠ some true → m.inverse = none) := by
  refine ⟨invertible_true_iff m, fun h => ?_⟩
  rw [Matrix.inverse, if_pos h]

/-- C3 amended witness: on the zero 2×2 matrix, `invertible()` returns false
and `inverse()` panics. -/
theorem C3_amended_invertible_inverse_witness :
    (Matrix.with_values 2 2 [0, 0, 0, 0]).inverse = none :=
  (C3_amended_invertible_inverse _).2
    (by simp [Matrix.invertible, Matrix.determinant, Matrix.det_fuel, Matrix.with_values])

/-! ## C4: matrix equality vs the roughly-equal primitive -/

/-- C4 counterexample. The 1×1 matrices `[0]` and `[5e-6]` have all
corresponding entries within `1e-5` of each other, yet `==` (which compares
entries with `approx_eq_ulps(_, 2)`, not with `roughly_equal`) reports them
unequal: the claimed equivalence fails. -/
theorem C4_counterexample :
    ¬(matrix_eq (Matrix.with_values 1 1 [0]) (Matrix.with_values 1 1 [1 / 200000]) ↔
      ((Matrix.with_values 1 1 [(0 : ℝ)]).rows = (Matrix.with_values 1 1 [(1 : ℝ) / 200000]).rows ∧
       (Matrix.with_values 1 1 [(0 : ℝ)]).cols = (Matrix.with_values 1 1 [(1 : ℝ) / 200000]).cols ∧
       ∀ p ∈ ((Matrix.with_values 1 1 [(0 : ℝ)]).data.zip
          (Matrix.with_values 1 1 [(1 : ℝ) / 200000]).data), roughly_equal p.1 p.2)) := by
  simp only [matrix_eq, Matrix.with_values, roughly_equal, EPSILON, abs_lt, List.zip_cons_cons,
    List.zip_nil_right, List.mem_singleton, forall_eq]
  norm_num

/-- C4 amended. Matrix `==` compares same-shape matrices entry-by-entry with
the 2-ULP comparison (exact equality in the real model), **not** with the
1e-5 `roughly_equal` primitive; matrices of mismatched shape compare unequal
without error. (The separate `RoughlyEqual` impl on `Matrix` is the one that
routes through `roughly_equal`.) -/
theorem C4_amended_matrix_eq (m1 m2 : Matrix) :
    (matrix_eq m1 m2 ↔ m1.rows = m2.rows ∧ m1.cols = m2.cols ∧
      ∀ p ∈ m1.data.zip m2.data, p.1 = p.2) ∧
    ((m1.rows ≠ m2.rows ∨ m1.cols ≠ m2.cols) → ¬matrix_eq m1 m2) := by
  refine ⟨Iff.rfl, fun h hc => ?_⟩
  rcases h with h | h <;> exact h (by simp [matrix_eq] at hc; tauto)

/-- C4 amended, witness: two matrices of mismatched shape compare unequal. -/
theorem C4_amended_matrix_eq_witness :
    ¬matrix_eq (Matrix.with_values 1 1 [0]) (Matrix.with_values 1 2 [0, 0]) :=
  (C4_amended_matrix_eq (Matrix.with_values 1 1 [0]) (Matrix.with_values 1 2 [0, 0])).2
    (Or.inr (by norm_num [Matrix.with_values]))

/-! ## C6: bounds checking of value_at vs set_value -/

/-- C6. `value_at` is bounds-checked (`value_at(0, 4)` on a 2×3 matrix
panics), but `set_value` is **not**: `set_value(0, 4, 99)` on the same 2×3
matrix silently succeeds and overwrites the cell at row 1, column 1 — the
flat index `cols*0 + 4 = 4` aliases into the next row, contradicting the
claim that out-of-range writes panic and never touch another row's cell. -/
theorem C6_set_value_unchecked :
    (Matrix.with_values 2 3 [10, 20, 30, 40, 50, 60]).value_at 0 4 = none ∧
    (Matrix.with_values 2 3 [10, 20, 30, 40, 50, 60]).set_value 0 4 99
      = some (Matrix.with_values 2 3 [10, 20, 30, 40, 99, 60]) ∧
    (Matrix.with_values 2 3 [10, 20, 30, 40, 99, 60]).value_at 1 1 = some 99 := by
  refine ⟨?_, ?_, ?_⟩ <;>
    simp [Matrix.value_at, Matrix.set_value, Matrix.with_values, List.set]

end RTC

namespace RTC

/-! ## C7: fluent composition pre-multiplies -/

/-- C7. Every chaining method returns `Constructor(args) * self`
(pre-multiplication); consequently
`identity4().rotate_x(r).scale(sx,sy,sz).translate(tx,ty,tz)` equals the
manually computed product `translation * scaling * rotation`, and the chained
transform `identity4().rotate_x(π/2).scale(5,5,5).translate(10,5,7)` maps
`point(1,0,1)` to `point(15,0,7)`. -/
theorem C7_fluent_composition :
    (∀ (m : Matrix) (x y z : ℝ), m.translate x y z = Matrix.translation x y z * m) ∧
    (∀ (m : Matrix) (x y z : ℝ), m.scale x y z = Matrix.scaling x y z * m) ∧
    (∀ (m : Matrix) (r : ℝ), m.rotate_x r = Matrix.rotation_x r * m) ∧
    (∀ (m : Matrix) (r : ℝ), m.rotate_y r = Matrix.rotation_y r * m) ∧
    (∀ (m : Matrix) (r : ℝ), m.rotate_z r = Matrix.rotation_z r * m) ∧
    (∀ (m : Matrix) (xy xz yx yz zx zy : ℝ),
      m.shear xy xz yx yz zx zy = Matrix.shearing xy xz yx yz zx zy * m) ∧
    (∀ r sx sy sz tx ty tz : ℝ,
      ((Matrix.identity4.rotate_x r).scale sx sy sz).translate tx ty tz
        = Matrix.translation tx ty tz * Matrix.scaling sx sy sz * Matrix.rotation_x r) ∧
    point_eq
      ((((Matrix.identity4.rotate_x (Real.pi / 2)).scale 5 5 5).translate 10 5 7) * point 1 0 1)
      (point 15 0 7) := by
  refine ⟨fun _ _ _ _ => rfl, fun _ _ _ _ => rfl, fun _ _ => rfl, fun _ _ => rfl,
    fun _ _ => rfl, fun _ _ _ _ _ _ _ => rfl, fun r sx sy sz tx ty tz => ?_, ?_⟩
  · simp [Matrix.translate, Matrix.scale, Matrix.rotate_x, matrix_mul_def,
      Matrix.mul, Matrix.identity4, Matrix.translation, Matrix.scaling, Matrix.rotation_x,
      Matrix.with_values, Matrix.calculate_cell, Matrix.row, Matrix.col, Matrix.new,
      Matrix.set_valueD, Matrix.value_atD, List.range_succ]
  · simp [Matrix.translate, Matrix.scale, Matrix.rotate_x, matrix_mul_def, matrix_mul_point_def,
      Matrix.mul, Matrix.identity4, Matrix.translation, Matrix.scaling, Matrix.rotation_x,
      Matrix.with_values, Matrix.calculate_cell, Matrix.row, Matrix.col, Matrix.new,
      Matrix.set_valueD, Matrix.value_atD, Matrix.from_point, Tuple.from_matrix,
      point, Point.new, point_eq, tuple_eq, roughly_equal, EPSILON, List.range_succ,
      Real.cos_pi_div_two, Real.sin_pi_div_two]
    norm_num

end RTC

namespace RTC

/-! ## C5: cofactor inverse correctness -/

/-- The product of a 4-row matrix and a 4-column matrix, as the explicit
row-major list of `calculate_cell` values. -/
theorem mul4_eval (m1 m2 : Matrix) (h1 : m1.rows = 4) (h2 : m2.cols = 4) :
    m1 * m2 = Matrix.with_values 4 4
      [Matrix.calculate_cell 0 0 m1 m2, Matrix.calculate_cell 0 1 m1 m2,
       Matrix.calculate_cell 0 2 m1 m2, Matrix.calculate_cell 0 3 m1 m2,
       Matrix.calculate_cell 1 0 m1 m2, Matrix.calculate_cell 1 1 m1 m2,
       Matrix.calculate_cell 1 2 m1 m2, Matrix.calculate_cell 1 3 m1 m2,
       Matrix.calculate_cell 2 0 m1 m2, Matrix.calculate_cell 2 1 m1 m2,
       Matrix.calculate_cell 2 2 m1 m2, Matrix.calculate_cell 2 3 m1 m2,
       Matrix.calculate_cell 3 0 m1 m2, Matrix.calculate_cell 3 1 m1 m2,
       Matrix.calculate_cell 3 2 m1 m2, Matrix.calculate_cell 3 3 m1 m2] := by
  rw [matrix_mul_def, Matrix.mul, h1, h2]
  simp [Matrix.with_values, Matrix.new, Matrix.set_valueD, List.range_succ]

/-- Lemma: `calculate_cell` between a 4-column matrix and a 4-row matrix is the
four-term dot product of the row and column entries. -/
theorem calculate_cell4_eval (m1 m2 : Matrix) (hc1 : m1.cols = 4) (hr2 : m2.rows = 4)
    (i j : Nat) :
    Matrix.calculate_cell i j m1 m2
      = m1.value_atD i 0 * m2.value_atD 0 j + m1.value_atD i 1 * m2.value_atD 1 j
        + m1.value_atD i 2 * m2.value_atD 2 j + m1.value_atD i 3 * m2.value_atD 3 j := by
  rw [Matrix.calculate_cell, Matrix.row, Matrix.col, hc1, hr2]
  simp [List.range_succ]
  ring

/-- The Mathlib image of a source 4×4 product is the Mathlib product of the
images. -/
theorem mul4_toM4 (m1 m2 : Matrix) (h1 : m1.rows = 4) (hc1 : m1.cols = 4)
    (hr2 : m2.rows = 4) (h2 : m2.cols = 4) :
    (m1 * m2).toM4 = m1.toM4 * m2.toM4 := by
  funext i j
  rw [show (m1.toM4 * m2.toM4) i j = (m1.toM4 * m2.toM4) i j from rfl,
    mathM4_mul_entry]
  rw [mul4_eval m1 m2 h1 h2]
  fin_cases i <;> fin_cases j <;>
    simp [Matrix.toM4, Matrix.value_atD, Matrix.with_values,
      calculate_cell4_eval m1 m2 hc1 hr2, show ((0 : Fin 4) : ℕ) = 0 from rfl, show ((1 : Fin 4) : ℕ) = 1 from rfl,
      show ((2 : Fin 4) : ℕ) = 2 from rfl, show ((3 : Fin 4) : ℕ) = 3 from rfl]

/-- The Mathlib image of `identity4` is the identity matrix. -/
theorem toM4_identity4 : Matrix.identity4.toM4 = 1 := by
  funext i j
  rw [mathM4_one_entry]
  fin_cases i <;> fin_cases j <;>
    simp [Matrix.toM4, Matrix.identity4, Matrix.value_atD, Matrix.with_values,
      show ((0 : Fin 4) : ℕ) = 0 from rfl, show ((1 : Fin 4) : ℕ) = 1 from rfl,
      show ((2 : Fin 4) : ℕ) = 2 from rfl, show ((3 : Fin 4) : ℕ) = 3 from rfl]

set_option maxHeartbeats 2000000 in
/-- Row `i` of a 4×4 matrix dotted with the `inverse`-entry column built from
the cofactors of row `j` over the determinant gives the Kronecker delta. -/
theorem inv_entry_sum (m : Matrix) (hr : m.rows = 4) (hc : m.cols = 4)
    (hdd : m.determinant_val ≠ 0) (i j : Nat) (hi : i < 4) (hj : j < 4) :
    m.value_atD i 0 * (m.cofactor_val j 0 / m.determinant_val)
      + m.value_atD i 1 * (m.cofactor_val j 1 / m.determinant_val)
      + m.value_atD i 2 * (m.cofactor_val j 2 / m.determinant_val)
      + m.value_atD i 3 * (m.cofactor_val j 3 / m.determinant_val)
      = if i = j then 1 else 0 := by
  have key := laplace4 m hr hc i j hi hj
  by_cases hij : i = j
  · rw [if_pos hij] at key ⊢
    field_simp
    linear_combination key
  · rw [if_neg hij] at key ⊢
    field_simp
    linear_combination key
set_option maxHeartbeats 2000000 in
/-- The matrix produced by `inverse` on an invertible 4×4 matrix is a right
inverse of its Mathlib image. -/
theorem right_inverse4 (m : Matrix) (hr : m.rows = 4) (hc : m.cols = 4)
    (hl : m.data.length = 16) (hd : m.invertible = some true)
    (n : Matrix) (hn : m.inverse = some n) :
    m.toM4 * n.toM4 = 1 := by
  have hdd : m.determinant_val ≠ 0 := by
    obtain ⟨d, hds, hdne⟩ := (invertible_true_iff m).mp hd
    have := determinant_some m (by omega) (by omega) (by rw [hl, hr, hc])
    rw [this, Option.some.injEq] at hds
    subst hds
    exact hdne
  rw [inverse4_eval m hr hc hl hd, Option.some.injEq] at hn
  have hne : ∀ k l : Nat, k < 4 → l < 4 →
      n.value_atD k l = m.cofactor_val l k / m.determinant_val := by
    intro k l hk hl2
    subst hn
    interval_cases k <;> interval_cases l <;>
      simp [Matrix.value_atD, Matrix.with_values]
  funext i j
  rw [mathM4_mul_entry, mathM4_one_entry]
  simp only [Matrix.toM4, Matrix.of_apply]
  fin_cases i <;> fin_cases j <;>
    simp only [show ((0 : Fin 4) : Nat) = 0 from rfl, show ((1 : Fin 4) : Nat) = 1 from rfl,
      show ((2 : Fin 4) : Nat) = 2 from rfl, show ((3 : Fin 4) : Nat) = 3 from rfl,
      hne 0 0 (by norm_num) (by norm_num), hne 0 1 (by norm_num) (by norm_num),
      hne 0 2 (by norm_num) (by norm_num), hne 0 3 (by norm_num) (by norm_num),
      hne 1 0 (by norm_num) (by norm_num), hne 1 1 (by norm_num) (by norm_num),
      hne 1 2 (by norm_num) (by norm_num), hne 1 3 (by norm_num) (by norm_num),
      hne 2 0 (by norm_num) (by norm_num), hne 2 1 (by norm_num) (by norm_num),
      hne 2 2 (by norm_num) (by norm_num), hne 2 3 (by norm_num) (by norm_num),
      hne 3 0 (by norm_num) (by norm_num), hne 3 1 (by norm_num) (by norm_num),
      hne 3 2 (by norm_num) (by norm_num), hne 3 3 (by norm_num) (by norm_num)]
  · have e := inv_entry_sum m hr hc hdd 0 0 (by norm_num) (by norm_num)
    norm_num [Fin.ext_iff] at e ⊢
    linear_combination e
  · have e := inv_entry_sum m hr hc hdd 0 1 (by norm_num) (by norm_num)
    norm_num [Fin.ext_iff] at e ⊢
    linear_combination e
  · have e := inv_entry_sum m hr hc hdd 0 2 (by norm_num) (by norm_num)
    norm_num [Fin.ext_iff] at e ⊢
    linear_combination e
  · have e := inv_entry_sum m hr hc hdd 0 3 (by norm_num) (by norm_num)
    norm_num [Fin.ext_iff] at e ⊢
    linear_combination e
  · have e := inv_entry_sum m hr hc hdd 1 0 (by norm_num) (by norm_num)
    norm_num [Fin.ext_iff] at e ⊢
    linear_combination e
  · have e := inv_entry_sum m hr hc hdd 1 1 (by norm_num) (by norm_num)
    norm_num [Fin.ext_iff] at e ⊢
    linear_combination e
  · have e := inv_entry_sum m hr hc hdd 1 2 (by norm_num) (by norm_num)
    norm_num [Fin.ext_iff] at e ⊢
    linear_combination e
  · have e := inv_entry_sum m hr hc hdd 1 3 (by norm_num) (by norm_num)
    norm_num [Fin.ext_iff] at e ⊢
    linear_combination e
  · have e := inv_entry_sum m hr hc hdd 2 0 (by norm_num) (by norm_num)
    norm_num [Fin.ext_iff] at e ⊢
    linear_combination e
  · have e := inv_entry_sum m hr hc hdd 2 1 (by norm_num) (by norm_num)
    norm_num [Fin.ext_iff] at e ⊢
    linear_combination e
  · have e := inv_entry_sum m hr hc hdd 2 2 (by norm_num) (by norm_num)
    norm_num [Fin.ext_iff] at e ⊢
    linear_combination e
  · have e := inv_entry_sum m hr hc hdd 2 3 (by norm_num) (by norm_num)
    norm_num [Fin.ext_iff] at e ⊢
    linear_combination e
  · have e := inv_entry_sum m hr hc hdd 3 0 (by norm_num) (by norm_num)
    norm_num [Fin.ext_iff] at e ⊢
    linear_combination e
  · have e := inv_entry_sum m hr hc hdd 3 1 (by norm_num) (by norm_num)
    norm_num [Fin.ext_iff] at e ⊢
    linear_combination e
  · have e := inv_entry_sum m hr hc hdd 3 2 (by norm_num) (by norm_num)
    norm_num [Fin.ext_iff] at e ⊢
    linear_combination e
  · have e := inv_entry_sum m hr hc hdd 3 3 (by norm_num) (by norm_num)
    norm_num [Fin.ext_iff] at e ⊢
    linear_combination e
/-- Two 4×4 matrices with equal Mathlib images are `RoughlyEqual` (each entry
pair is identical, hence within EPSILON). -/
theorem matrix_roughly_equal_of_toM4_eq (a b : Matrix)
    (hra : a.rows = 4) (hca : a.cols = 4) (hla : a.data.length = 16)
    (hrb : b.rows = 4) (hcb : b.cols = 4) (hlb : b.data.length = 16)
    (h : a.toM4 = b.toM4) : matrix_roughly_equal a b := by
  have key : ∀ f : Nat, f < 16 → a.data.getD f 0 = b.data.getD f 0 := by
    intro f hf
    have hij := congrFun (congrFun h ⟨f / 4, by omega⟩) ⟨f % 4, by omega⟩
    simp only [Matrix.toM4, Matrix.of_apply, Matrix.value_atD, hca, hcb] at hij
    rwa [Nat.div_add_mod] at hij
  refine ⟨hra.trans hrb.symm, hca.trans hcb.symm, ?_⟩
  intro pr hpr
  obtain ⟨f, hf, hget⟩ := List.mem_iff_getElem.mp hpr
  rw [List.getElem_zip] at hget
  have hfa : f < a.data.length := by simp [List.length_zip] at hf; omega
  have hfb : f < b.data.length := by simp [List.length_zip] at hf; omega
  have hv : pr.1 = pr.2 := by
    rw [← hget]
    simp only
    rw [← List.getD_eq_getElem a.data 0 hfa, ← List.getD_eq_getElem b.data 0 hfb]
    exact key f (by omega)
  simp [roughly_equal, hv, EPSILON]

/-- C5 counterexample to the claim as frozen (`for every invertible matrix`):
the 2×2 matrix `diag(2, 2)` is invertible (`invertible()` returns `true`,
determinant 4), yet `inverse()` panics instead of returning the cofactor
formula: each cofactor of a 2×2 matrix needs the determinant of a 1×1
submatrix, and `submatrix` on a 1×1 matrix panics (matrix.rs:107-112). -/
theorem C5_counterexample :
    (Matrix.with_values 2 2 [2, 0, 0, 2]).invertible = some true ∧
    (Matrix.with_values 2 2 [2, 0, 0, 2]).inverse = none := by
  constructor
  · simp [Matrix.invertible, Matrix.determinant, Matrix.det_fuel, Matrix.with_values]
  · simp [Matrix.inverse, Matrix.invertible, Matrix.determinant, Matrix.det_fuel,
      Matrix.with_values, Matrix.cofactor, Matrix.minor, Matrix.submatrix,
      Matrix.value_at, Matrix.set_value, Matrix.set_valueD, Matrix.new,
      List.range_succ]

set_option maxHeartbeats 2000000 in
/-- C5, amended to the sizes the program actually inverts. On every invertible
4×4 matrix (`with_values` invariant: 16 data entries), `inverse()` succeeds
and its entry at `[col][row]` is `cofactor(row, col) / determinant`; moreover
`M * M.inverse()` is component-wise roughly-equal to `identity4()` and
`M.inverse().inverse()` is component-wise roughly-equal to `M`. -/
theorem C5_inverse_correct (m : Matrix) (hr : m.rows = 4) (hc : m.cols = 4)
    (hl : m.data.length = 16) (hd : m.invertible = some true) :
    ∃ n, m.inverse = some n ∧
      (∀ row col : Nat, row < 4 → col < 4 → ∃ c d,
        m.cofactor row col = some c ∧ m.determinant = some d ∧
        n.value_atD col row = c / d) ∧
      matrix_roughly_equal (m * n) Matrix.identity4 ∧
      ∃ p, n.inverse = some p ∧ matrix_roughly_equal p m := by
  have hdet := determinant_some m (by omega) (by omega) (by rw [hl, hr, hc])
  have hdd : m.determinant_val ≠ 0 := by
    obtain ⟨d, hds, hdne⟩ := (invertible_true_iff m).mp hd
    rw [hdet, Option.some.injEq] at hds
    subst hds
    exact hdne
  have hn := inverse4_eval m hr hc hl hd
  set n : Matrix := Matrix.with_values 4 4
      [m.cofactor_val 0 0 / m.determinant_val, m.cofactor_val 1 0 / m.determinant_val,
       m.cofactor_val 2 0 / m.determinant_val, m.cofactor_val 3 0 / m.determinant_val,
       m.cofactor_val 0 1 / m.determinant_val, m.cofactor_val 1 1 / m.determinant_val,
       m.cofactor_val 2 1 / m.determinant_val, m.cofactor_val 3 1 / m.determinant_val,
       m.cofactor_val 0 2 / m.determinant_val, m.cofactor_val 1 2 / m.determinant_val,
       m.cofactor_val 2 2 / m.determinant_val, m.cofactor_val 3 2 / m.determinant_val,
       m.cofactor_val 0 3 / m.determinant_val, m.cofactor_val 1 3 / m.determinant_val,
       m.cofactor_val 2 3 / m.determinant_val, m.cofactor_val 3 3 / m.determinant_val]
    with hndef
  have hmn : m.toM4 * n.toM4 = 1 := right_inverse4 m hr hc hl hd n hn
  have hminv : m.toM4⁻¹ = n.toM4 := mathM4_inv_eq _ _ hmn
  have hdm4 : m.toM4.det ≠ 0 := by rw [← determinant4_toM4 m hr hc]; exact hdd
  have hdnv : n.determinant_val ≠ 0 := by
    rw [determinant4_toM4 n rfl rfl, ← hminv, mathM4_det_inv]
    exact inv_ne_zero hdm4
  have hdn : n.invertible = some true :=
    (invertible_true_iff n).mpr ⟨n.determinant_val, determinant_some n rfl (by rw [hndef]; norm_num [Matrix.with_values]) rfl, hdnv⟩
  have hp := inverse4_eval n rfl rfl rfl hdn
  have hnp := right_inverse4 n rfl rfl rfl hdn _ hp
  refine ⟨n, hn, ?_, ?_, _, hp, ?_⟩
  · intro row col hrow hcol
    refine ⟨m.cofactor_val row col, m.determinant_val,
      cofactor_some m row col (by omega) (by omega) (by omega) (by omega), hdet, ?_⟩
    interval_cases row <;> interval_cases col <;>
      simp [hndef, Matrix.value_atD, Matrix.with_values]
  · have h1 : (m * n).toM4 = Matrix.identity4.toM4 := by
      rw [mul4_toM4 m n hr hc rfl rfl, hmn, toM4_identity4]
    refine matrix_roughly_equal_of_toM4_eq _ _ ?_ ?_ ?_ rfl rfl rfl h1
    · rw [mul4_eval m n hr rfl]
      rfl
    · rw [mul4_eval m n hr rfl]
      rfl
    · rw [mul4_eval m n hr rfl]
      rfl
  · have hpm : (Matrix.with_values 4 4
        [n.cofactor_val 0 0 / n.determinant_val, n.cofactor_val 1 0 / n.determinant_val,
         n.cofactor_val 2 0 / n.determinant_val, n.cofactor_val 3 0 / n.determinant_val,
         n.cofactor_val 0 1 / n.determinant_val, n.cofactor_val 1 1 / n.determinant_val,
         n.cofactor_val 2 1 / n.determinant_val, n.cofactor_val 3 1 / n.determinant_val,
         n.cofactor_val 0 2 / n.determinant_val, n.cofactor_val 1 2 / n.determinant_val,
         n.cofactor_val 2 2 / n.determinant_val, n.cofactor_val 3 2 / n.determinant_val,
         n.cofactor_val 0 3 / n.determinant_val, n.cofactor_val 1 3 / n.determinant_val,
         n.cofactor_val 2 3 / n.determinant_val, n.cofactor_val 3 3 / n.determinant_val]).toM4
        = m.toM4 := by
      rw [← mathM4_inv_eq _ _ hnp, ← hminv, mathM4_inv_inv _ hdm4]
    exact matrix_roughly_equal_of_toM4_eq _ _ rfl rfl rfl hr hc hl hpm
/-- C5 witness: `identity4` is invertible and its `inverse` succeeds. -/
theorem C5_inverse_correct_witness :
    Matrix.identity4.invertible = some true ∧ Matrix.identity4.inverse ≠ none := by
  have hd : Matrix.identity4.invertible = some true := by
    refine (invertible_true_iff _).mpr
      ⟨Matrix.identity4.determinant_val,
        determinant_some _ rfl (by norm_num [Matrix.identity4, Matrix.with_values]) rfl, ?_⟩
    simp [Matrix.determinant_val, Matrix.det_fuel_val, Matrix.identity4,
      Matrix.with_values, Matrix.submatrix_val, Matrix.set_valueD, Matrix.value_atD,
      Matrix.new, List.range_succ]
  obtain ⟨n, hn, -⟩ := C5_inverse_correct Matrix.identity4 rfl rfl rfl hd
  exact ⟨hd, by simp [hn]⟩
end RTC
